import Mathlib

/-!
# Verification of the `xtask` toolchain bootstrap orchestrator

This development embeds the behavior of `xtask/src/main.rs` (the toolchain
bootstrap orchestrator of the repository) into Lean and proves properties of
the embedding.

Two levels of modelling are used, both translated from the source:

* A filesystem model (`FsObj`, `rename`, `resolveFs`, `resolveTrace`) for the
  symlink-resolution loop at the end of `build_llvm`.  Paths are plain strings;
  a filesystem maps each path to at most one object (regular file with
  contents, directory, or symlink with its stored target string).  Directories
  are atomic entries: the children of a directory are separate path entries,
  and the walk of the install prefix is represented by the list of paths the
  walk yields (the OS directory iteration order is unspecified, so the list
  order is a parameter).  `fs::rename(src, dst)` moves the object stored at
  `src` to `dst`, failing when `src` holds no object.  Two renderings of the
  loop are given: `resolveFs`/`resolveTrace` consult the current object at
  each visited path, while `resolveW` additionally carries each entry's file
  type as captured by the walk when the entry's directory was read, and
  aborts (a failing `fs::read_link`) when a listed symlink entry no longer
  holds a symlink at visit time; the two agree except on such vanished
  entries.

* A world/command-trace model (`World`, `Cmd`, `Err`, `ensureCheckout`,
  `setupLlvm`, `setupLinker`, `setup`) for the orchestration functions
  `setup_linker`, `setup_llvm` and `main`'s `Setup` branch.  External
  subprocesses are represented by a `Cmd` value recorded in an invocation
  trace; whether an invocation succeeds is given by an oracle `ok : Cmd → Bool`
  (the code itself only observes the exit status).  A successful `git clone`
  creates its destination directory and a successful `cmake --build … install`
  creates the marker file `bin/llvm-config`: these are the external process
  contracts the code relies on.
-/

/-- A filesystem object: a regular file with its contents, a directory, or a
symbolic link with its stored target. -/
inductive FsObj where
  | file (content : String)
  | dir
  | symlink (target : String)
deriving DecidableEq, Repr

/-- A filesystem: at most one object per path. -/
abbrev FsFun := String → Option FsObj

/-- The first list is a prefix of the second (computable prefix test used for
path predicates). -/
def listStarts : List Char → List Char → Bool
  | [], _ => true
  | _ :: _, [] => false
  | a :: as, b :: bs => a == b && listStarts as bs

/-- `Path::is_absolute` for the string path model: the stored target begins
with the root separator. -/
def isAbs (p : String) : Bool := listStarts "/".data p.data

/-- A path lies strictly inside the directory `pre`. -/
def isUnder (pre p : String) : Bool := listStarts (pre ++ "/").data p.data

/-- `fs::rename(src, dst)`: move the object stored at `src` to `dst`,
replacing whatever was at `dst`; fails (returns `none`) when nothing is stored
at `src`. -/
def rename (src dst : String) (fs : FsFun) : Option FsFun :=
  match fs src with
  | none => none
  | some obj =>
      some fun q => if q = dst then some obj else if q = src then none else fs q

/-- The error produced when a rename in the resolution loop fails: the code
aborts with a message naming the target and the link
(`"failed to move the target file … to the location of the symlink …"`). -/
structure RenameErr where
  target : String
  link : String
deriving DecidableEq, Repr

/-- The symlink-resolution loop at the end of `build_llvm` (`main.rs:253-276`):
for each walked entry, if it currently holds a symlink whose stored target is
absolute, rename the target over the link; the first failing rename aborts the
pass.  `entries` is the list of paths yielded by the walk of the install
prefix. -/
def resolveFs : List String → FsFun → Except RenameErr FsFun
  | [], fs => .ok fs
  | p :: rest, fs =>
      match fs p with
      | some (.symlink t) =>
          if isAbs t then
            match rename t p fs with
            | some fs1 => resolveFs rest fs1
            | none => .error ⟨t, p⟩
          else resolveFs rest fs
      | _ => resolveFs rest fs

/-- An observable event of the resolution loop: visiting a walked entry, or
performing a rename. -/
inductive Ev where
  | visit (p : String)
  | ren (src dst : String)
deriving DecidableEq, Repr

/-- The resolution loop of `build_llvm`, instrumented with its event trace:
the same computation as `resolveFs`, also recording, in order, each entry
visit and each rename as it is performed. -/
def resolveTrace : List String → FsFun → List Ev × Except RenameErr FsFun
  | [], fs => ([], .ok fs)
  | p :: rest, fs =>
      match fs p with
      | some (.symlink t) =>
          if isAbs t then
            match rename t p fs with
            | some fs1 =>
                let r := resolveTrace rest fs1
                (Ev.visit p :: Ev.ren t p :: r.1, r.2)
            | none => ([Ev.visit p], .error ⟨t, p⟩)
          else
            let r := resolveTrace rest fs
            (Ev.visit p :: r.1, r.2)
      | _ =>
          let r := resolveTrace rest fs
          (Ev.visit p :: r.1, r.2)

/-- The instrumented loop computes the same final filesystem as `resolveFs`. -/
theorem resolveTrace_snd (entries : List String) (fs : FsFun) :
    (resolveTrace entries fs).2 = resolveFs entries fs := by
  induction entries generalizing fs with
  | nil => rfl
  | cons p rest ih =>
      simp only [resolveTrace, resolveFs]
      cases hp : fs p with
      | none => exact ih fs
      | some obj =>
          cases obj with
          | file c => exact ih fs
          | dir => exact ih fs
          | symlink t =>
              by_cases ht : isAbs t
              · simp only [ht, if_true]
                cases hr : rename t p fs with
                | none => rfl
                | some fs1 => exact ih fs1
              · simp only [ht, if_false]
                exact ih fs

/-- The event is a visit. -/
def isVisit : Ev → Bool
  | .visit _ => true
  | .ren _ _ => false

/-- The event is a rename. -/
def isRen : Ev → Bool
  | .visit _ => false
  | .ren _ _ => true

/-- A trace is two-phase when it splits into a block of visits followed by a
block of renames: no rename happens before the walk has yielded its last
entry. -/
def twoPhase (evs : List Ev) : Bool :=
  (List.range (evs.length + 1)).any fun n =>
    ((evs.take n).all isVisit && (evs.drop n).all isRen)

/-- Every rename in the trace immediately follows the visit of the link it
renames over, and no rename occurs without such a visit directly before it. -/
def renAfterVisit : List Ev → Bool
  | [] => true
  | .visit p :: .ren _ dst :: rest => p == dst && renAfterVisit rest
  | .visit _ :: rest => renAfterVisit rest
  | .ren _ _ :: _ => false

/-! ## Orchestration model for `setup_linker`, `setup_llvm` and `setup` -/

/-- `https://github.com/blueshift-gg/llvm-project.git` -/
def LLVM_REPO : String := "https://github.com/blueshift-gg/llvm-project.git"

/-- `BPF_i128_ret` -/
def LLVM_BRANCH : String := "BPF_i128_ret"

/-- `https://github.com/blueshift-gg/sbpf-linker` -/
def LINKER_REPO : String := "https://github.com/blueshift-gg/sbpf-linker"

/-- `u128_mul_libcall` -/
def LINKER_BRANCH : String := "u128_mul_libcall"

/-- An external subprocess invocation performed by the orchestrator.  The
fixed cmake flag lists (`-G Ninja`, `-DLLVM_TARGETS_TO_BUILD=BPF`, …) do not
vary between invocations and are not recorded here; the varying arguments
(directories, environment, build args) are. -/
inductive Cmd where
  /-- `git clone --branch <branch> <url> <dest>` -/
  | gitClone (branch url dest : String)
  /-- `cmake -S <srcLlvm> -B <buildDir> … -DCMAKE_INSTALL_PREFIX=<installDir>` -/
  | cmakeConfigure (srcLlvm buildDir installDir : String)
  /-- `cmake --build <buildDir> --target install` with `CMAKE_INSTALL_MODE=<mode>` -/
  | cmakeInstall (buildDir mode : String)
  /-- `cargo <args>` with `LLVM_PREFIX=<llvmPrefix>` in `<cwd>` -/
  | cargoBuild (args : List String) (llvmPrefix cwd : String)
  /-- `cargo +nightly build-bpf` in `<cwd>` -/
  | cargoNightlyBuildBpf (cwd : String)
deriving DecidableEq, Repr

/-- Errors of the orchestrator, one constructor per `bail`/`context` site:
`cloneFailed` for `run_command` at a clone call site (carrying its
description), `configureFailed` and `llvmBuildFailed` for the two `bail!`
sites in `build_llvm`, `linkerBuildFailed` for `run_command` at the
`cargo build --release` call site. -/
inductive Err where
  | cloneFailed (desc : String)
  | configureFailed
  | llvmBuildFailed
  | linkerBuildFailed
deriving DecidableEq, Repr

/-- The external state the orchestration steps inspect and update: whether
the two checkouts exist, whether the LLVM install marker
(`llvm-install/bin/llvm-config`) exists, whether the linker binary exists, and
the contents of the project's `.cargo/config.toml` (if the file exists). -/
structure World where
  llvmSrcExists : Bool
  markerExists : Bool
  linkerDirExists : Bool
  linkerBinExists : Bool
  cargoConfig : Option String
deriving DecidableEq, Repr

/-- The checkout step shared by `setup_llvm` (`main.rs:162-171`) and
`setup_linker` (`main.rs:97-106`): if the destination exists, skip; else run
`git clone --branch <branch> <url> <dest>`, with failure mapped by
`run_command` to the error with description `desc`.  Returns whether the
destination exists afterwards, the commands invoked, and the error, if any.
A successful clone creates the destination: this is the external contract of
`git clone`. -/
def ensureCheckout (ok : Cmd → Bool) (url branch dest desc : String)
    (destExists : Bool) : Bool × List Cmd × Option Err :=
  if destExists then (true, [], none)
  else
    let c := Cmd.gitClone branch url dest
    if ok c then (true, [c], none)
    else (false, [c], some (.cloneFailed desc))

/-- The contents written to `.cargo/config.toml` before the linker path is
interpolated (`main.rs:124-141`). -/
def cfgPre : String :=
  "[unstable]\nbuild-std = [\"core\", \"alloc\"]\n\n[target.bpfel-unknown-none]\nrustflags = [\n    \"-C\", \"linker="

/-- The contents written to `.cargo/config.toml` after the linker path is
interpolated (`main.rs:124-141`). -/
def cfgPost : String :=
  "\",\n    \"-C\", \"panic=abort\",\n    \"-C\", \"link-arg=--dump-module=llvm_dump\",\n    \"-C\", \"link-arg=--llvm-args=-bpf-stack-size=4096\",\n    \"-C\", \"relocation-model=static\",\n]\n\n[alias]\nbuild-bpf = \"build --release --target bpfel-unknown-none\"\nxtask = \"run --package xtask --\"\n"

/-- The full generated `.cargo/config.toml` contents for a given linker
binary path: the `format!` template of `setup_linker` instantiated at that
path. -/
def configContent (linkerBin : String) : String :=
  cfgPre ++ linkerBin ++ cfgPost

/-- The config-write step of `setup_linker` (`main.rs:119-145`): the file is
fully overwritten with the template instantiated at the linker path, whatever
its previous contents. -/
def writeConfig (w : World) (linkerBin : String) : World :=
  { w with cargoConfig := some (configContent linkerBin) }

/-- `setup_llvm` (`main.rs:151-189`): ensure the LLVM checkout, then, unless
the marker `llvm-install/bin/llvm-config` exists, configure
(`cmake -S … -B …`) and build+install (`cmake --build … --target install`
with `CMAKE_INSTALL_MODE=ABS_SYMLINK`).  The symlink-resolution walk that
`build_llvm` performs after a successful install acts on the detailed
filesystem and is modelled separately (`resolveFs`); a successful install
creates the marker.  Returns the resulting world, the subprocess invocations
in order, and the error, if any. -/
def setupLlvm (ok : Cmd → Bool) (cache : String) (w : World) :
    World × List Cmd × Option Err :=
  let srcDir := cache ++ "/llvm-project"
  match ensureCheckout ok LLVM_REPO LLVM_BRANCH srcDir "clone llvm-project"
      w.llvmSrcExists with
  | (ex, cs, some e) => ({ w with llvmSrcExists := ex }, cs, some e)
  | (ex, cs, none) =>
      let w1 := { w with llvmSrcExists := ex }
      if w1.markerExists then (w1, cs, none)
      else
        let cfg := Cmd.cmakeConfigure (srcDir ++ "/llvm") (cache ++ "/llvm-build")
          (cache ++ "/llvm-install")
        if ok cfg then
          let bld := Cmd.cmakeInstall (cache ++ "/llvm-build") "ABS_SYMLINK"
          if ok bld then ({ w1 with markerExists := true }, cs ++ [cfg, bld], none)
          else (w1, cs ++ [cfg, bld], some .llvmBuildFailed)
        else (w1, cs ++ [cfg], some .configureFailed)

/-- `setup_linker` (`main.rs:85-149`): ensure the linker checkout, then always
run `cargo build --release` with `LLVM_PREFIX` set to `cache/llvm-install`
(there is no skip check), then overwrite `.cargo/config.toml` with the
generated contents.  Returns the resulting world, the subprocess invocations
in order, and the error, if any. -/
def setupLinker (ok : Cmd → Bool) (cache : String) (w : World) :
    World × List Cmd × Option Err :=
  let linkerDir := cache ++ "/sbpf-linker"
  let linkerBin := linkerDir ++ "/target/release/sbpf-linker"
  match ensureCheckout ok LINKER_REPO LINKER_BRANCH linkerDir "clone sbpf-linker"
      w.linkerDirExists with
  | (ex, cs, some e) => ({ w with linkerDirExists := ex }, cs, some e)
  | (ex, cs, none) =>
      let w1 := { w with linkerDirExists := ex }
      let bld := Cmd.cargoBuild ["build", "--release"] (cache ++ "/llvm-install")
        linkerDir
      if ok bld then
        (writeConfig { w1 with linkerBinExists := true } linkerBin,
          cs ++ [bld], none)
      else (w1, cs ++ [bld], some .linkerBuildFailed)

/-- The `Setup` branch of `main` (`main.rs:40-50`): `setup_llvm` then
`setup_linker`, short-circuiting on the first error; the final banner is
printed only when both succeed. -/
def setup (ok : Cmd → Bool) (cache : String) (w : World) :
    World × List Cmd × Option Err :=
  match setupLlvm ok cache w with
  | (w1, cs, some e) => (w1, cs, some e)
  | (w1, cs, none) =>
      match setupLinker ok cache w1 with
      | (w2, cs2, r) => (w2, cs ++ cs2, r)

/-! ## Invariant lemmas for the resolution loop -/

/-- Unfolding a successful `rename`. -/
theorem rename_eq_some {src dst : String} {fs fs1 : FsFun}
    (h : rename src dst fs = some fs1) :
    ∃ obj, fs src = some obj ∧
      fs1 = fun q => if q = dst then some obj else if q = src then none else fs q := by
  unfold rename at h
  cases hsrc : fs src with
  | none => rw [hsrc] at h; exact absurd h (by simp)
  | some obj =>
      rw [hsrc] at h
      exact ⟨obj, rfl, (Option.some.injEq _ _ ▸ h).symm⟩

/-- `rename` fails exactly when the source holds no object. -/
theorem rename_eq_none {src dst : String} {fs : FsFun}
    (h : rename src dst fs = none) : fs src = none := by
  unfold rename at h
  cases hsrc : fs src with
  | none => rfl
  | some obj => rw [hsrc] at h; exact absurd h (by simp)

/-- A path holding no object keeps holding no object across a successful run
of the resolution loop: the loop never creates an object at a vacated path
(a rename onto it would require visiting it as a symlink, and a rename out of
it would have failed). -/
theorem resolve_none_frame (q : String) :
    ∀ (rem : List String) (fs : FsFun), fs q = none →
    ∀ fsr, resolveFs rem fs = .ok fsr → fsr q = none := by
  intro rem
  induction rem with
  | nil =>
      intro fs hq fsr hok
      simp only [resolveFs, Except.ok.injEq] at hok
      rw [← hok]; exact hq
  | cons p rest ih =>
      intro fs hq fsr hok
      simp only [resolveFs] at hok
      split at hok
      · rename_i t hfp
        split at hok
        · rename_i ht
          split at hok
          · rename_i fs1 hr
            obtain ⟨obj1, hsrc, hfs1⟩ := rename_eq_some hr
            have hqp : q ≠ p := by
              intro h; rw [h, hfp] at hq; exact absurd hq (by simp)
            have hqt : q ≠ t := by
              intro h; rw [h, hsrc] at hq; exact absurd hq (by simp)
            have hq1 : fs1 q = none := by
              rw [hfs1]; simp only [if_neg hqp, if_neg hqt]; exact hq
            exact ih fs1 hq1 fsr hok
          · exact absurd hok (by simp)
        · exact ih fs hq fsr hok
      · exact ih fs hq fsr hok

/-- Frame preservation across the resolution loop.  Fix the initial
filesystem `fs₀` and the full walk list `E`.  If `q` is never the stored
target of an absolute symlink of `fs₀` at a walked path, and `q` itself does
not hold an absolute symlink of `fs₀` while still unvisited, then a successful
run of the loop from a state agreeing with `fs₀` on the remaining entries
leaves the object at `q` unchanged. -/
theorem resolve_preserve_aux (E : List String) (fs₀ : FsFun) (q : String)
    (HnoTq : ∀ p ∈ E, ∀ t, fs₀ p = some (.symlink t) → isAbs t = true → t ≠ q) :
    ∀ (rem : List String) (fs : FsFun), rem.Nodup → (∀ p ∈ rem, p ∈ E) →
    (∀ p ∈ rem, fs p = fs₀ p ∨ fs p = none) →
    (q ∈ rem → ∀ t, fs₀ q = some (.symlink t) → isAbs t = true → False) →
    ∀ fsr, resolveFs rem fs = .ok fsr → fsr q = fs q := by
  intro rem
  induction rem with
  | nil =>
      intro fs _ _ _ _ fsr hok
      simp only [resolveFs, Except.ok.injEq] at hok
      rw [← hok]
  | cons p rest ih =>
      intro fs hnd hsub hrem hqsafe fsr hok
      have hndr : rest.Nodup := hnd.of_cons
      have hpnr : p ∉ rest := (List.nodup_cons.mp hnd).1
      have hsubr : ∀ r ∈ rest, r ∈ E := fun r hr => hsub r (List.mem_cons_of_mem p hr)
      have hqsafer : q ∈ rest → ∀ t, fs₀ q = some (.symlink t) → isAbs t = true → False :=
        fun hq => hqsafe (List.mem_cons_of_mem p hq)
      simp only [resolveFs] at hok
      split at hok
      · rename_i t hfp
        have hfs0p : fs₀ p = some (.symlink t) := by
          rcases hrem p (List.mem_cons_self p rest) with h | h
          · rw [← h]; exact hfp
          · rw [h] at hfp; exact absurd hfp (by simp)
        split at hok
        · rename_i ht
          have htq : t ≠ q := HnoTq p (hsub p (List.mem_cons_self p rest)) t hfs0p ht
          have hpq : p ≠ q := by
            intro h
            exact hqsafe (h ▸ List.mem_cons_self p rest) t (h ▸ hfs0p) ht
          split at hok
          · rename_i fs1 hr
            obtain ⟨obj1, hsrc, hfs1⟩ := rename_eq_some hr
            have hq1 : fs1 q = fs q := by
              rw [hfs1]
              simp only [if_neg (Ne.symm hpq), if_neg (Ne.symm htq)]
            have hrem1 : ∀ r ∈ rest, fs1 r = fs₀ r ∨ fs1 r = none := by
              intro r hr'
              rw [hfs1]
              by_cases hrp : r = p
              · exact absurd (hrp ▸ hr') hpnr
              · by_cases hrt : r = t
                · simp only [if_neg hrp, if_pos hrt, Or.inr]
                · simp only [if_neg hrp, if_neg hrt]
                  exact hrem r (List.mem_cons_of_mem p hr')
            rw [← hq1]
            exact ih fs1 hndr hsubr hrem1 hqsafer fsr hok
          · exact absurd hok (by simp)
        · exact ih fs hndr hsubr
            (fun r hr => hrem r (List.mem_cons_of_mem p hr)) hqsafer fsr hok
      · exact ih fs hndr hsubr
          (fun r hr => hrem r (List.mem_cons_of_mem p hr)) hqsafer fsr hok

/-- The central correctness lemma for the resolution loop.  Fix the initial
filesystem `fs₀` and the full walk list `E`.  Suppose no absolute symlink of
`fs₀` at a walked path stores `L` as its target, `T` is absolute, `fs₀` holds
`objT` at `T`, and `objT` is not itself an absolute symlink.  Then from any
loop state that agrees with `fs₀` on the remaining entries, still holds the
symlink `L → T`, and holds `objT` or nothing at `T`, a successful run ends
with `objT` at `L` and nothing at `T`. -/
theorem resolve_move_aux (E : List String) (fs₀ : FsFun) (L T : String) (objT : FsObj)
    (HnoTL : ∀ p ∈ E, ∀ t, fs₀ p = some (.symlink t) → isAbs t = true → t ≠ L)
    (hTabs : isAbs T = true)
    (hTsafe : ∀ t', objT = .symlink t' → isAbs t' = false) :
    ∀ (rem : List String) (fs : FsFun), rem.Nodup → (∀ p ∈ rem, p ∈ E) →
    (∀ p ∈ rem, fs p = fs₀ p ∨ fs p = none) →
    L ∈ rem →
    fs L = some (.symlink T) →
    (fs T = some objT ∨ fs T = none) →
    ∀ fsr, resolveFs rem fs = .ok fsr → fsr L = some objT ∧ fsr T = none := by
  intro rem
  induction rem with
  | nil => intro fs _ _ _ hL; exact absurd hL (List.not_mem_nil L)
  | cons p rest ih =>
      intro fs hnd hsub hrem hLmem hfsL hfsT fsr hok
      have hTL : T ≠ L := by
        intro h
        rcases hfsT with hT | hT
        · rw [h] at hT
          rw [hfsL] at hT
          have hobj : objT = FsObj.symlink T := (Option.some.inj hT).symm
          rw [hTsafe T hobj] at hTabs
          exact absurd hTabs (by simp)
        · rw [h] at hT
          rw [hfsL] at hT
          exact absurd hT (by simp)
      have hndr : rest.Nodup := hnd.of_cons
      have hpnr : p ∉ rest := (List.nodup_cons.mp hnd).1
      have hsubr : ∀ r ∈ rest, r ∈ E := fun r hr => hsub r (List.mem_cons_of_mem p hr)
      have hremr : ∀ r ∈ rest, fs r = fs₀ r ∨ fs r = none :=
        fun r hr => hrem r (List.mem_cons_of_mem p hr)
      by_cases hpL : p = L
      · subst hpL
        simp only [resolveFs] at hok
        rw [hfsL] at hok
        simp only [hTabs, if_true] at hok
        rcases hfsT with hT | hT
        · have hr : rename T p fs =
              some fun q => if q = p then some objT else if q = T then none else fs q := by
            unfold rename; rw [hT]
          rw [hr] at hok
          set fs1 : FsFun :=
            fun q => if q = p then some objT else if q = T then none else fs q with hfs1
          have hfs1p : fs1 p = some objT := by rw [hfs1]; simp
          have hfs1T : fs1 T = none := by
            rw [hfs1]; simp [hTL]
          have hrem1 : ∀ r ∈ rest, fs1 r = fs₀ r ∨ fs1 r = none := by
            intro r hr'
            rw [hfs1]
            by_cases hrp : r = p
            · exact absurd (hrp ▸ hr') hpnr
            · by_cases hrT : r = T
              · simp only [if_neg hrp, if_pos hrT, Or.inr]
              · simp only [if_neg hrp, if_neg hrT]
                exact hremr r hr'
          constructor
          · have hpres := resolve_preserve_aux E fs₀ p HnoTL rest fs1 hndr hsubr hrem1
              (fun hmem => absurd hmem hpnr) fsr hok
            rw [hpres, hfs1p]
          · exact resolve_none_frame T rest fs1 hfs1T fsr hok
        · have hr : rename T p fs = none := by unfold rename; rw [hT]
          rw [hr] at hok
          exact absurd hok (by simp)
      · have hLr : L ∈ rest := by
          rcases List.mem_cons.mp hLmem with h | h
          · exact absurd h.symm hpL
          · exact h
        simp only [resolveFs] at hok
        split at hok
        · rename_i t hfp
          have hfs0p : fs₀ p = some (.symlink t) := by
            rcases hrem p (List.mem_cons_self p rest) with h | h
            · rw [← h]; exact hfp
            · rw [h] at hfp; exact absurd hfp (by simp)
          split at hok
          · rename_i ht
            have htL : t ≠ L := HnoTL p (hsub p (List.mem_cons_self p rest)) t hfs0p ht
            have hpT : p ≠ T := by
              intro h
              rcases hfsT with hT | hT
              · rw [← h] at hT
                rw [hfp] at hT
                have hobj : objT = FsObj.symlink t := (Option.some.inj hT).symm
                rw [hTsafe t hobj] at ht
                exact absurd ht (by simp)
              · rw [← h] at hT
                rw [hfp] at hT
                exact absurd hT (by simp)
            split at hok
            · rename_i fs1 hr
              obtain ⟨obj1, hsrc, hfs1⟩ := rename_eq_some hr
              have hfs1L : fs1 L = some (.symlink T) := by
                rw [hfs1]
                simp only [if_neg (Ne.symm hpL), if_neg (Ne.symm htL)]
                exact hfsL
              have hfs1T : fs1 T = some objT ∨ fs1 T = none := by
                rw [hfs1]
                by_cases hTt : T = t
                · simp only [if_neg (Ne.symm hpT), if_pos hTt, Or.inr]
                · simp only [if_neg (Ne.symm hpT), if_neg hTt]
                  exact hfsT
              have hrem1 : ∀ r ∈ rest, fs1 r = fs₀ r ∨ fs1 r = none := by
                intro r hr'
                rw [hfs1]
                by_cases hrp : r = p
                · exact absurd (hrp ▸ hr') hpnr
                · by_cases hrt : r = t
                  · simp only [if_neg hrp, if_pos hrt, Or.inr]
                  · simp only [if_neg hrp, if_neg hrt]
                    exact hremr r hr'
              exact ih fs1 hndr hsubr hrem1 hLr hfs1L hfs1T fsr hok
            · exact absurd hok (by simp)
          · exact ih fs hndr hsubr hremr hLr hfsL hfsT fsr hok
        · exact ih fs hndr hsubr hremr hLr hfsL hfsT fsr hok

/-- A nonempty trace of the resolution loop starts with a visit event. -/
theorem resolveTrace_head (entries : List String) (fs : FsFun) :
    (resolveTrace entries fs).1 = [] ∨
      ∃ p tl, (resolveTrace entries fs).1 = Ev.visit p :: tl := by
  cases entries with
  | nil => exact Or.inl rfl
  | cons p rest =>
      simp only [resolveTrace]
      cases hfp : fs p with
      | none => exact Or.inr ⟨p, _, rfl⟩
      | some obj =>
          cases obj with
          | file c => exact Or.inr ⟨p, _, rfl⟩
          | dir => exact Or.inr ⟨p, _, rfl⟩
          | symlink t =>
              by_cases ht : isAbs t
              · simp only [ht, if_true]
                cases hr : rename t p fs with
                | none => exact Or.inr ⟨p, _, rfl⟩
                | some fs1 => exact Or.inr ⟨p, _, rfl⟩
              · simp only [ht, if_false]
                exact Or.inr ⟨p, _, rfl⟩

/-- Claim C2 (amended): the symlink-resolution step is single-phase, not
walk-then-mutate: renames are performed during the directory walk itself, each
rename occurring immediately after the visit of the symlink entry it renames
over, while the tree is still being iterated. -/
theorem c2_renames_interleaved_with_walk (entries : List String) (fs : FsFun) :
    renAfterVisit (resolveTrace entries fs).1 = true := by
  induction entries generalizing fs with
  | nil => rfl
  | cons p rest ih =>
      simp only [resolveTrace]
      cases hfp : fs p with
      | none =>
          rcases resolveTrace_head rest fs with h | ⟨q, tl, h⟩
          · rw [h]; rfl
          · rw [h]; simp only [renAfterVisit]; rw [← h]; exact ih fs
      | some obj =>
          cases obj with
          | file c =>
              rcases resolveTrace_head rest fs with h | ⟨q, tl, h⟩
              · rw [h]; rfl
              · rw [h]; simp only [renAfterVisit]; rw [← h]; exact ih fs
          | dir =>
              rcases resolveTrace_head rest fs with h | ⟨q, tl, h⟩
              · rw [h]; rfl
              · rw [h]; simp only [renAfterVisit]; rw [← h]; exact ih fs
          | symlink t =>
              by_cases ht : isAbs t
              · simp only [ht, if_true]
                cases hr : rename t p fs with
                | none => rfl
                | some fs1 =>
                    simp only [renAfterVisit, beq_self_eq_true, Bool.true_and]
                    exact ih fs1
              · simp only [ht, if_false]
                rcases resolveTrace_head rest fs with h | ⟨q, tl, h⟩
                · rw [h]; rfl
                · rw [h]; simp only [renAfterVisit]; rw [← h]; exact ih fs

/-! ## Claims about the symlink-resolution pass -/

/-- The entry at `p` is an absolute symlink of `fs` whose stored target is
`q`. -/
def targetsPath (fs : FsFun) (q p : String) : Bool :=
  match fs p with
  | some (.symlink t) => isAbs t && t == q
  | _ => false

/-- Converting the boolean no-targeting hypothesis into the form the
invariant lemmas use. -/
theorem targetsPath_ne {fs : FsFun} {q p t : String}
    (h : targetsPath fs q p = false)
    (hp : fs p = some (.symlink t)) (ht : isAbs t = true) : t ≠ q := by
  unfold targetsPath at h
  rw [hp] at h
  simp only [ht, Bool.true_and] at h
  intro he
  subst he
  simp at h

/-- Claim C1 (amended): let `E` be the walk of the install tree under `pre`
(duplicate-free, every entry under the prefix and present), let `L ∈ E` be a
symlink whose stored target is an absolute path `T` holding a real file, and
suppose no absolute symlink in the tree stores `L` itself as its target.  If
the resolution pass completes successfully, `L` holds a real file with `T`'s
original contents and `T` no longer exists at its old path. -/
theorem c1_symlink_resolution_moves_target
    (E : List String) (fs₀ : FsFun) (pre L T c : String)
    (hnd : E.Nodup)
    (_hEtree : ∀ p ∈ E, isUnder pre p = true ∧ (fs₀ p).isSome = true)
    (hLE : L ∈ E)
    (hL : fs₀ L = some (.symlink T))
    (hTa : isAbs T = true)
    (hTf : fs₀ T = some (.file c))
    (hNoChain : ∀ p ∈ E, targetsPath fs₀ L p = false)
    (hok : (resolveFs E fs₀).toOption.isSome = true) :
    (resolveFs E fs₀).toOption.map (fun f => (f L, f T)) =
      some (some (.file c), none) := by
  cases h : resolveFs E fs₀ with
  | error e => rw [h] at hok; exact absurd hok (by simp [Except.toOption])
  | ok fsr =>
      have hmove := resolve_move_aux E fs₀ L T (.file c)
        (fun p hp t hsym habs => targetsPath_ne (hNoChain p hp) hsym habs)
        hTa (fun t' h' => by cases h')
        E fs₀ hnd (fun p hp => hp) (fun p _ => Or.inl rfl) hLE hL (Or.inl hTf) fsr h
      simp only [Except.toOption, Option.map, hmove.1, hmove.2]

/-- A synthetic install tree under `/i` with a chain: `/i/a` is a symlink to
the outside file `/t`, and `/i/b` is a symlink to `/i/a`. -/
def chainFs : FsFun := fun p =>
  if p = "/i/a" then some (.symlink "/t")
  else if p = "/i/b" then some (.symlink "/i/a")
  else if p = "/t" then some (.file "data")
  else none

/-- Counterexample to claim C1 as stated: in `chainFs`, the entry `/i/a` is a
symlink whose absolute target `/t` is an existing real file, the resolution
pass completes successfully, and yet afterwards `/i/a` holds nothing at all —
the pass's own later rename for `/i/b` moved the file away again.  (The walk
order is the directory order `/i/a`, `/i/b`; both entries are under the
prefix and `/t` is outside it.) -/
theorem c1_counterexample :
    chainFs "/i/a" = some (.symlink "/t") ∧
    isAbs "/t" = true ∧
    chainFs "/t" = some (.file "data") ∧
    ["/i/a", "/i/b"].Nodup ∧
    isUnder "/i" "/i/a" = true ∧ isUnder "/i" "/i/b" = true ∧
    isUnder "/i" "/t" = false ∧
    (resolveFs ["/i/a", "/i/b"] chainFs).toOption.isSome = true ∧
    (resolveFs ["/i/a", "/i/b"] chainFs).toOption.map (fun f => f "/i/a") =
      some none := by decide

/-- A synthetic install tree under `/i` with one absolute symlink `/i/link`
to the outside real file `/t`. -/
def pairFs : FsFun := fun p =>
  if p = "/i/link" then some (.symlink "/t")
  else if p = "/t" then some (.file "x")
  else none

/-- Witness for C1 (amended) at the concrete tree `pairFs`. -/
theorem c1_witness :
    (resolveFs ["/i/link"] pairFs).toOption.map
        (fun f => (f "/i/link", f "/t")) = some (some (.file "x"), none) :=
  c1_symlink_resolution_moves_target ["/i/link"] pairFs "/i" "/i/link" "/t" "x"
    (by decide) (by decide) (by decide) (by decide) (by decide) (by decide)
    (by decide) (by decide)

/-- A synthetic install tree under `/i` with two independent absolute
symlinks to outside real files. -/
def twoLinkFs : FsFun := fun p =>
  if p = "/i/a" then some (.symlink "/t1")
  else if p = "/i/b" then some (.symlink "/t2")
  else if p = "/t1" then some (.file "x")
  else if p = "/t2" then some (.file "y")
  else none

/-- Counterexample to claim C2 as stated: on `twoLinkFs` the loop's event
trace interleaves visits and renames — the first rename happens before the
walk has yielded its second entry — so the trace does not split into a
walk phase followed by a mutate phase. -/
theorem c2_counterexample :
    (resolveTrace ["/i/a", "/i/b"] twoLinkFs).1 =
      [Ev.visit "/i/a", Ev.ren "/t1" "/i/a",
        Ev.visit "/i/b", Ev.ren "/t2" "/i/b"] ∧
    twoPhase (resolveTrace ["/i/a", "/i/b"] twoLinkFs).1 = false := by decide

/-- Claim C8 (amended): the resolution pass leaves unchanged every entry
that is not an absolute symlink (regular files, directories, symlinks with a
relative stored target), provided the entry's path is not the stored target
of an absolute symlink at some walked path.  `E` is the walk of the install
tree under `pre`. -/
theorem c8_resolution_frame
    (E : List String) (fs₀ : FsFun) (pre q : String) (obj : FsObj)
    (hnd : E.Nodup)
    (_hEtree : ∀ p ∈ E, isUnder pre p = true ∧ (fs₀ p).isSome = true)
    (hq : fs₀ q = some obj)
    (hqNotAbs : ∀ t, obj = FsObj.symlink t → isAbs t = false)
    (hNoT : ∀ p ∈ E, targetsPath fs₀ q p = false)
    (hok : (resolveFs E fs₀).toOption.isSome = true) :
    (resolveFs E fs₀).toOption.map (fun f => f q) = some (some obj) := by
  cases h : resolveFs E fs₀ with
  | error e => rw [h] at hok; exact absurd hok (by simp [Except.toOption])
  | ok fsr =>
      have hpres := resolve_preserve_aux E fs₀ q
        (fun p hp t hsym habs => targetsPath_ne (hNoT p hp) hsym habs)
        E fs₀ hnd (fun p hp => hp) (fun p _ => Or.inl rfl)
        (fun _ t hsym habs => by
          have := hqNotAbs t (Option.some.inj (hq ▸ hsym))
          rw [this] at habs
          exact absurd habs (by simp))
        fsr h
      simp only [Except.toOption, Option.map, hpres, hq]

/-- A synthetic install tree under `/i` in which the absolute symlink
`/i/link` stores the in-tree regular file `/i/t` as its target. -/
def insideFs : FsFun := fun p =>
  if p = "/i/link" then some (.symlink "/i/t")
  else if p = "/i/t" then some (.file "x")
  else none

/-- Counterexample to claim C8 as stated: in `insideFs` the entry `/i/t` is
a regular file of the install tree, yet after a successful resolution pass it
no longer holds anything — the pass moved it over `/i/link`.  So the pass
does modify regular files. -/
theorem c8_counterexample :
    insideFs "/i/t" = some (.file "x") ∧
    isUnder "/i" "/i/t" = true ∧
    (resolveFs ["/i/link", "/i/t"] insideFs).toOption.isSome = true ∧
    (resolveFs ["/i/link", "/i/t"] insideFs).toOption.map (fun f => f "/i/t") =
      some none := by decide

/-- A synthetic install tree under `/i` holding a regular file, a directory
and a relative symlink, none of them targeted by any absolute symlink. -/
def frameFs : FsFun := fun p =>
  if p = "/i/doc" then some (.file "d")
  else if p = "/i/sub" then some .dir
  else if p = "/i/rel" then some (.symlink "lib.so")
  else none

/-- Witness for C8 (amended) at the concrete tree `frameFs`: the regular
file `/i/doc` is untouched. -/
theorem c8_witness :
    (resolveFs ["/i/doc", "/i/sub", "/i/rel"] frameFs).toOption.map
        (fun f => f "/i/doc") = some (some (.file "d")) :=
  c8_resolution_frame ["/i/doc", "/i/sub", "/i/rel"] frameFs "/i" "/i/doc"
    (.file "d") (by decide) (by decide) (by decide)
    (fun t h => by cases h) (by decide) (by decide)

/-- Error cases of the resolution loop under the captured-type walk
semantics: `fs::read_link` fails when the walked path no longer holds a
symlink (`"failed to read the link …"`, `main.rs:265-266`), and a rename can
fail (`"failed to move the target file … to the location of the symlink …"`,
`main.rs:268-274`). -/
inductive WalkErr where
  | readLinkFailed (link : String)
  | renameFailed (target link : String)
deriving DecidableEq, Repr

/-- The symlink-resolution loop of `build_llvm` (`main.rs:253-276`) under the
captured-type walk semantics: each walked entry carries, besides its path,
the file type WalkDir captured when the entry's directory was read (here: the
object held at walk start).  `entry.file_type().is_symlink()` consults that
captured type, so an entry captured as a non-symlink is skipped outright,
while for an entry captured as a symlink the loop calls `fs::read_link` on
the current filesystem: if the path no longer holds a symlink — in particular
when an earlier rename of the same walk moved it away — the read fails and
the loop aborts with an error; otherwise, if the stored target is absolute,
the target is renamed over the link, aborting on rename failure.  The event
trace records each visit and each rename in order.  (`resolveFs` above is the
coarser model that consults only the current object; the two differ exactly
on vanished listed symlinks, where this one aborts.) -/
def resolveW : List (String × FsObj) → FsFun → List Ev × Except WalkErr FsFun
  | [], fs => ([], .ok fs)
  | (p, ty) :: rest, fs =>
      match ty with
      | .symlink _ =>
          match fs p with
          | some (.symlink t) =>
              if isAbs t then
                match rename t p fs with
                | some fs1 =>
                    let r := resolveW rest fs1
                    (Ev.visit p :: Ev.ren t p :: r.1, r.2)
                | none => ([Ev.visit p], .error (.renameFailed t p))
              else
                let r := resolveW rest fs
                (Ev.visit p :: r.1, r.2)
          | _ => ([Ev.visit p], .error (.readLinkFailed p))
      | _ =>
          let r := resolveW rest fs
          (Ev.visit p :: r.1, r.2)

/-- A path holding no object keeps holding no object across a successful run
of the captured-type loop: a rename out of it would have failed, and a rename
onto it would require its own visit to find a live symlink there. -/
theorem resolveW_none_frame (q : String) :
    ∀ (rem : List (String × FsObj)) (fs : FsFun), fs q = none →
    ∀ fsr, (resolveW rem fs).2 = .ok fsr → fsr q = none := by
  intro rem
  induction rem with
  | nil =>
      intro fs hq fsr hok
      simp only [resolveW, Except.ok.injEq] at hok
      rw [← hok]; exact hq
  | cons pe rest ih =>
      obtain ⟨p, ty⟩ := pe
      intro fs hq fsr hok
      cases ty with
      | file c1 =>
          simp only [resolveW] at hok
          exact ih fs hq fsr hok
      | dir =>
          simp only [resolveW] at hok
          exact ih fs hq fsr hok
      | symlink s =>
          simp only [resolveW] at hok
          cases hfp : fs p with
          | none =>
              simp only [hfp] at hok
              exact absurd hok (by simp)
          | some obj =>
              cases obj with
              | file c1 => simp only [hfp] at hok; exact absurd hok (by simp)
              | dir => simp only [hfp] at hok; exact absurd hok (by simp)
              | symlink t =>
                  simp only [hfp] at hok
                  by_cases ht : isAbs t
                  · simp only [ht, if_true] at hok
                    cases hr : rename t p fs with
                    | none => simp only [hr] at hok; exact absurd hok (by simp)
                    | some fs1 =>
                        simp only [hr] at hok
                        obtain ⟨obj1, hsrc, hfs1⟩ := rename_eq_some hr
                        have hqp : q ≠ p := by
                          intro h; rw [h, hfp] at hq; exact absurd hq (by simp)
                        have hqt : q ≠ t := by
                          intro h; rw [h, hsrc] at hq; exact absurd hq (by simp)
                        have hq1 : fs1 q = none := by
                          rw [hfs1]; simp only [if_neg hqp, if_neg hqt]; exact hq
                        exact ih fs1 hq1 fsr hok
                  · simp only [ht, if_false] at hok
                    exact ih fs hq fsr hok

/-- Processing lemma for the captured-type loop.  Fix `fs₀` and a walked
symlink `L` with absolute stored target `T`, where `T` is not itself a walked
path.  From any loop state agreeing with `fs₀` on the remaining entries
(up to removal) in which `T` holds `fs₀`'s file or nothing, a successful run
performs the rename of `T` over `L` and ends with nothing at `T`: if `L` had
been moved away first, its own visit would have failed the run. -/
theorem resolveW_move_aux (fs₀ : FsFun) (L T c : String)
    (hL0 : fs₀ L = some (.symlink T))
    (hTa : isAbs T = true)
    (hTL : T ≠ L) :
    ∀ (rem : List (String × FsObj)) (fs : FsFun),
    (rem.map Prod.fst).Nodup →
    (∀ pe ∈ rem, fs₀ pe.1 = some pe.2) →
    (∀ pe ∈ rem, pe.1 ≠ T) →
    (∀ pe ∈ rem, fs pe.1 = fs₀ pe.1 ∨ fs pe.1 = none) →
    (L, FsObj.symlink T) ∈ rem →
    (fs T = some (.file c) ∨ fs T = none) →
    ∀ fsr, (resolveW rem fs).2 = .ok fsr →
      Ev.ren T L ∈ (resolveW rem fs).1 ∧ fsr T = none := by
  intro rem
  induction rem with
  | nil =>
      intro fs _ _ _ _ hLmem _ _ _
      exact absurd hLmem (List.not_mem_nil _)
  | cons pe rest ih =>
      obtain ⟨p, ty⟩ := pe
      intro fs hnd hcap hnT hrem hLmem hfsT fsr hok
      have hnd1 : (p :: rest.map Prod.fst).Nodup := by simpa using hnd
      have hndr : (rest.map Prod.fst).Nodup := hnd1.of_cons
      have hpnr : p ∉ rest.map Prod.fst := (List.nodup_cons.mp hnd1).1
      have hcapr : ∀ pe ∈ rest, fs₀ pe.1 = some pe.2 :=
        fun pe hpe => hcap pe (List.mem_cons_of_mem _ hpe)
      have hnTr : ∀ pe ∈ rest, pe.1 ≠ T :=
        fun pe hpe => hnT pe (List.mem_cons_of_mem _ hpe)
      have hremr : ∀ pe ∈ rest, fs pe.1 = fs₀ pe.1 ∨ fs pe.1 = none :=
        fun pe hpe => hrem pe (List.mem_cons_of_mem _ hpe)
      by_cases hpL : p = L
      · subst hpL
        have hty : ty = FsObj.symlink T := by
          rcases List.mem_cons.mp hLmem with h | h
          · exact ((Prod.mk.injEq _ _ _ _).mp h.symm).2
          · exact absurd (List.mem_map_of_mem Prod.fst h) hpnr
        subst hty
        have hfsL0 : fs p = fs₀ p ∨ fs p = none :=
          hrem (p, FsObj.symlink T) (List.mem_cons_self _ _)
        rcases hfsL0 with hfsL | hfsL
        · rw [hL0] at hfsL
          rcases hfsT with hT | hT
          · have hr : rename T p fs =
                some fun q => if q = p then some (.file c)
                  else if q = T then none else fs q := by
              unfold rename; rw [hT]
            simp only [resolveW, hfsL, hTa, if_true, hr] at hok ⊢
            refine ⟨List.mem_cons_of_mem _ (List.mem_cons_self _ _), ?_⟩
            have hfs1T :
                (fun q => if q = p then some (FsObj.file c)
                  else if q = T then none else fs q) T = none := by
              simp [hTL]
            exact resolveW_none_frame T rest _ hfs1T fsr hok
          · have hr : rename T p fs = none := by unfold rename; rw [hT]
            simp only [resolveW, hfsL, hTa, if_true, hr] at hok
            exact absurd hok (by simp)
        · simp only [resolveW, hfsL] at hok
          exact absurd hok (by simp)
      · have hLr : (L, FsObj.symlink T) ∈ rest := by
          rcases List.mem_cons.mp hLmem with h | h
          · exact absurd ((Prod.mk.injEq _ _ _ _).mp h).1.symm hpL
          · exact h
        cases ty with
        | file c1 =>
            simp only [resolveW] at hok ⊢
            have hres := ih fs hndr hcapr hnTr hremr hLr hfsT fsr hok
            exact ⟨List.mem_cons_of_mem _ hres.1, hres.2⟩
        | dir =>
            simp only [resolveW] at hok ⊢
            have hres := ih fs hndr hcapr hnTr hremr hLr hfsT fsr hok
            exact ⟨List.mem_cons_of_mem _ hres.1, hres.2⟩
        | symlink s =>
            simp only [resolveW] at hok ⊢
            cases hfp : fs p with
            | none =>
                simp only [hfp] at hok
                exact absurd hok (by simp)
            | some obj =>
                cases obj with
                | file c1 => simp only [hfp] at hok; exact absurd hok (by simp)
                | dir => simp only [hfp] at hok; exact absurd hok (by simp)
                | symlink t =>
                    simp only [hfp] at hok ⊢
                    have hpT : p ≠ T := hnT (p, FsObj.symlink s) (List.mem_cons_self _ _)
                    by_cases ht : isAbs t
                    · simp only [ht, if_true] at hok ⊢
                      cases hr : rename t p fs with
                      | none =>
                          simp only [hr] at hok
                          exact absurd hok (by simp)
                      | some fs1 =>
                          simp only [hr] at hok ⊢
                          obtain ⟨obj1, hsrc, hfs1⟩ := rename_eq_some hr
                          have hrem1 : ∀ pe ∈ rest, fs1 pe.1 = fs₀ pe.1 ∨ fs1 pe.1 = none := by
                            intro pe hpe
                            rw [hfs1]
                            by_cases hrp : pe.1 = p
                            · exact absurd (hrp ▸ List.mem_map_of_mem Prod.fst hpe) hpnr
                            · by_cases hrt : pe.1 = t
                              · simp only [if_neg hrp, if_pos hrt, Or.inr]
                              · simp only [if_neg hrp, if_neg hrt]
                                exact hremr pe hpe
                          have hfsT1 : fs1 T = some (.file c) ∨ fs1 T = none := by
                            rw [hfs1]
                            by_cases hTt : T = t
                            · simp only [if_neg (Ne.symm hpT), if_pos hTt, Or.inr]
                            · simp only [if_neg (Ne.symm hpT), if_neg hTt]
                              exact hfsT
                          have hres := ih fs1 hndr hcapr hnTr hrem1 hLr hfsT1 fsr hok
                          exact ⟨List.mem_cons_of_mem _
                            (List.mem_cons_of_mem _ hres.1), hres.2⟩
                    · simp only [ht, if_false] at hok ⊢
                      have hres := ih fs hndr hcapr hnTr hremr hLr hfsT fsr hok
                      exact ⟨List.mem_cons_of_mem _ hres.1, hres.2⟩

/-- Claim C9: during symlink resolution no containment check is performed on
symlink targets.  Let `E` be the walk of the install tree under `pre` (each
entry its path with the file type captured when its directory was read,
paths duplicate-free, types those of `fs₀`, every entry under the prefix),
and let `L` be a walked symlink whose absolute stored target `T` is an
existing file anywhere on the filesystem — here outside the install prefix.
If the pass completes successfully, it processed `L` by renaming `T` over it:
the rename event occurs in the trace, the link path lies inside the install
tree, and `T`'s old outside location holds nothing afterwards — the file was
moved into the install tree. -/
theorem c9_no_containment_check
    (E : List (String × FsObj)) (fs₀ : FsFun) (pre L T c : String)
    (hnd : (E.map Prod.fst).Nodup)
    (hcap : ∀ pe ∈ E, fs₀ pe.1 = some pe.2)
    (hEunder : ∀ pe ∈ E, isUnder pre pe.1 = true)
    (hLE : (L, FsObj.symlink T) ∈ E)
    (hTa : isAbs T = true)
    (hTout : isUnder pre T = false)
    (hTf : fs₀ T = some (.file c))
    (hok : (resolveW E fs₀).2.toOption.isSome = true) :
    Ev.ren T L ∈ (resolveW E fs₀).1 ∧
    isUnder pre L = true ∧
    (resolveW E fs₀).2.toOption.map (fun f => f T) = some none := by
  have hL0 : fs₀ L = some (.symlink T) := hcap (L, FsObj.symlink T) hLE
  have hTL : T ≠ L := by
    intro h
    rw [h, hL0] at hTf
    exact absurd (Option.some.inj hTf) (by simp)
  have hnT : ∀ pe ∈ E, pe.1 ≠ T := by
    intro pe hpe h
    have hu := hEunder pe hpe
    rw [h, hTout] at hu
    exact absurd hu (by simp)
  cases hres : (resolveW E fs₀).2 with
  | error e => rw [hres] at hok; exact absurd hok (by simp [Except.toOption])
  | ok fsr =>
      have hmove := resolveW_move_aux fs₀ L T c hL0 hTa hTL E fs₀ hnd hcap hnT
        (fun pe _ => Or.inl rfl) hLE (Or.inl hTf) fsr hres
      refine ⟨hmove.1, hEunder (L, FsObj.symlink T) hLE, ?_⟩
      simp only [Except.toOption, Option.map, hmove.2]

/-- A synthetic install tree under `/j` with one absolute symlink to a real
file outside the prefix. -/
def outsideFs : FsFun := fun p =>
  if p = "/j/link" then some (.symlink "/data/z")
  else if p = "/data/z" then some (.file "z")
  else none

/-- Witness for C9 at the concrete tree `outsideFs`: the outside file is
renamed over the in-tree link and vanishes from its old path. -/
theorem c9_witness :
    Ev.ren "/data/z" "/j/link" ∈
      (resolveW [("/j/link", FsObj.symlink "/data/z")] outsideFs).1 ∧
    isUnder "/j" "/j/link" = true ∧
    (resolveW [("/j/link", FsObj.symlink "/data/z")] outsideFs).2.toOption.map
        (fun f => f "/data/z") = some none :=
  c9_no_containment_check [("/j/link", FsObj.symlink "/data/z")] outsideFs "/j"
    "/j/link" "/data/z" "z"
    (by decide) (by decide) (by decide) (by decide) (by decide) (by decide)
    (by decide) (by decide)

/-! ## Claims about the orchestration steps -/

/-- The command is one of the two cmake subprocesses of `build_llvm`
(configure, or build+install). -/
def isCmakeCmd : Cmd → Bool
  | .cmakeConfigure _ _ _ => true
  | .cmakeInstall _ _ => true
  | _ => false

/-- The command is a `cargo build` subprocess. -/
def isCargoBuildCmd : Cmd → Bool
  | .cargoBuild _ _ _ => true
  | _ => false

/-- The command is a `git clone` subprocess. -/
def isCloneCmd : Cmd → Bool
  | .gitClone _ _ _ => true
  | _ => false

/-- Claim C3 (amended): if the marker file `llvm-install/bin/llvm-config`
exists when `setup_llvm` runs, neither the cmake configure subprocess nor the
cmake build/install subprocess is invoked; and provided the preceding clone
step does not fail (the source checkout already exists, or its clone
succeeds), the operation reports already-built and returns success. -/
theorem c3_marker_skips_build (ok : Cmd → Bool) (cache : String) (w : World)
    (hm : w.markerExists = true) :
    (setupLlvm ok cache w).2.1.all (fun c => !isCmakeCmd c) = true ∧
    (w.llvmSrcExists = true ∨
        ok (Cmd.gitClone LLVM_BRANCH LLVM_REPO (cache ++ "/llvm-project")) = true →
      (setupLlvm ok cache w).2.2 = none) := by
  cases hsrc : w.llvmSrcExists with
  | true => simp [setupLlvm, ensureCheckout, hsrc, hm, isCmakeCmd]
  | false =>
      cases hokc : ok (Cmd.gitClone LLVM_BRANCH LLVM_REPO (cache ++ "/llvm-project")) with
      | true => simp [setupLlvm, ensureCheckout, hsrc, hokc, hm, isCmakeCmd]
      | false => simp [setupLlvm, ensureCheckout, hsrc, hokc, hm, isCmakeCmd]

/-- A world in which the marker exists but the LLVM source checkout does
not. -/
def wMarkerNoSrc : World :=
  { llvmSrcExists := false, markerExists := true, linkerDirExists := false,
    linkerBinExists := false, cargoConfig := none }

/-- Counterexample to claim C3 as stated: with the marker present but the
`llvm-project` checkout absent and the clone subprocess failing, `setup_llvm`
returns an error, not success — the marker check happens only after the
clone step. -/
theorem c3_counterexample :
    wMarkerNoSrc.markerExists = true ∧
    (setupLlvm (fun _ => false) "/c" wMarkerNoSrc).2.2 =
      some (Err.cloneFailed "clone llvm-project") := by decide

/-- A world in which both the marker and the LLVM source checkout exist. -/
def wMarkerSrc : World :=
  { llvmSrcExists := true, markerExists := true, linkerDirExists := false,
    linkerBinExists := false, cargoConfig := none }

/-- Witness for C3 (amended) at a concrete world with the marker present. -/
theorem c3_witness :
    (setupLlvm (fun _ => true) "/c" wMarkerSrc).2.1.all
        (fun c => !isCmakeCmd c) = true ∧
    (setupLlvm (fun _ => true) "/c" wMarkerSrc).2.2 = none :=
  ⟨(c3_marker_skips_build (fun _ => true) "/c" wMarkerSrc (by decide)).1,
    (c3_marker_skips_build (fun _ => true) "/c" wMarkerSrc (by decide)).2
      (Or.inl (by decide))⟩

/-- Claim C4: for any (url, branch, destination), with the destination
initially absent and the clone subprocess succeeding, running the checkout
step twice performs exactly one clone invocation in total: the first call
clones, and the second call, seeing the destination exist, invokes no
command at all. -/
theorem c4_checkout_idempotent (ok : Cmd → Bool) (url branch dest desc : String)
    (hok : ok (Cmd.gitClone branch url dest) = true) :
    (ensureCheckout ok url branch dest desc false).2.1 =
      [Cmd.gitClone branch url dest] ∧
    (ensureCheckout ok url branch dest desc
        (ensureCheckout ok url branch dest desc false).1).2.1 = [] ∧
    ((ensureCheckout ok url branch dest desc false).2.1 ++
        (ensureCheckout ok url branch dest desc
          (ensureCheckout ok url branch dest desc false).1).2.1).length = 1 := by
  simp [ensureCheckout, hok]

/-- Witness for C4 at concrete arguments. -/
theorem c4_witness :
    (ensureCheckout (fun _ => true) "u" "b" "/c/d" "clone d" false).2.1 =
      [Cmd.gitClone "b" "u" "/c/d"] ∧
    (ensureCheckout (fun _ => true) "u" "b" "/c/d" "clone d"
        (ensureCheckout (fun _ => true) "u" "b" "/c/d" "clone d" false).1).2.1 = [] ∧
    ((ensureCheckout (fun _ => true) "u" "b" "/c/d" "clone d" false).2.1 ++
        (ensureCheckout (fun _ => true) "u" "b" "/c/d" "clone d"
          (ensureCheckout (fun _ => true) "u" "b" "/c/d" "clone d" false).1).2.1).length
      = 1 :=
  c4_checkout_idempotent (fun _ => true) "u" "b" "/c/d" "clone d" rfl

/-- Claim C5: if the LLVM clone subprocess fails during `setup`, `setup`
returns the clone-failure error, and nothing later runs: the only invoked
command is that clone (in particular no cmake configure, no cmake
build/install, no linker cargo build), and the configuration file is left
unchanged. -/
theorem c5_clone_failure_short_circuits (ok : Cmd → Bool) (cache : String)
    (w : World)
    (hsrc : w.llvmSrcExists = false)
    (hfail : ok (Cmd.gitClone LLVM_BRANCH LLVM_REPO (cache ++ "/llvm-project")) = false) :
    (setup ok cache w).2.2 = some (Err.cloneFailed "clone llvm-project") ∧
    (setup ok cache w).2.1 =
      [Cmd.gitClone LLVM_BRANCH LLVM_REPO (cache ++ "/llvm-project")] ∧
    (setup ok cache w).1.cargoConfig = w.cargoConfig := by
  simp [setup, setupLlvm, ensureCheckout, hsrc, hfail]

/-- A world in which nothing has been set up and a config file already
exists. -/
def wFresh : World :=
  { llvmSrcExists := false, markerExists := false, linkerDirExists := false,
    linkerBinExists := false, cargoConfig := some "previous contents" }

/-- Witness for C5 at a concrete world and failing oracle. -/
theorem c5_witness :
    (setup (fun _ => false) "/c" wFresh).2.2 =
      some (Err.cloneFailed "clone llvm-project") ∧
    (setup (fun _ => false) "/c" wFresh).2.1 =
      [Cmd.gitClone LLVM_BRANCH LLVM_REPO ("/c" ++ "/llvm-project")] ∧
    (setup (fun _ => false) "/c" wFresh).1.cargoConfig = wFresh.cargoConfig :=
  c5_clone_failure_short_circuits (fun _ => false) "/c" wFresh rfl rfl

/-- Claim C6 (amended): on every invocation of `setup_linker` whose clone
step does not fail (the checkout directory already exists, or its clone
succeeds), the linker is rebuilt: `cargo build --release` is invoked with
`LLVM_PREFIX` set to `cache/llvm-install` in the checkout directory, with no
skip-if-already-built check — the invoked commands are the same even when
the linker binary already exists. -/
theorem c6_linker_always_rebuilt (ok : Cmd → Bool) (cache : String) (w : World)
    (hclone : w.linkerDirExists = true ∨
      ok (Cmd.gitClone LINKER_BRANCH LINKER_REPO (cache ++ "/sbpf-linker")) = true) :
    Cmd.cargoBuild ["build", "--release"] (cache ++ "/llvm-install")
        (cache ++ "/sbpf-linker") ∈ (setupLinker ok cache w).2.1 ∧
    (setupLinker ok cache { w with linkerBinExists := true }).2.1 =
      (setupLinker ok cache w).2.1 := by
  cases hb : ok (Cmd.cargoBuild ["build", "--release"] (cache ++ "/llvm-install")
      (cache ++ "/sbpf-linker")) with
  | true =>
      rcases hclone with h | h
      · simp [setupLinker, ensureCheckout, h, hb]
      · cases hdir : w.linkerDirExists with
        | true => simp [setupLinker, ensureCheckout, hdir, hb]
        | false => simp [setupLinker, ensureCheckout, hdir, h, hb]
  | false =>
      rcases hclone with h | h
      · simp [setupLinker, ensureCheckout, h, hb]
      · cases hdir : w.linkerDirExists with
        | true => simp [setupLinker, ensureCheckout, hdir, hb]
        | false => simp [setupLinker, ensureCheckout, hdir, h, hb]

/-- A world in which the linker checkout is absent but the linker binary
exists. -/
def wBinOnly : World :=
  { llvmSrcExists := true, markerExists := true, linkerDirExists := false,
    linkerBinExists := true, cargoConfig := none }

/-- Counterexample to claim C6 as stated: when the linker checkout directory
is absent and its clone subprocess fails, `setup_linker` returns before the
build step, so this invocation does not rebuild the linker — no `cargo build`
is invoked at all. -/
theorem c6_counterexample :
    (setupLinker (fun _ => false) "/c" wBinOnly).2.1.all
      (fun c => !isCargoBuildCmd c) = true ∧
    (setupLinker (fun _ => false) "/c" wBinOnly).2.2 =
      some (Err.cloneFailed "clone sbpf-linker") := by decide

/-- A world in which the linker checkout and binary already exist. -/
def wLinkerBuilt : World :=
  { llvmSrcExists := true, markerExists := true, linkerDirExists := true,
    linkerBinExists := true, cargoConfig := some "previous contents" }

/-- Witness for C6 (amended): even with the linker binary already present,
the build command is invoked. -/
theorem c6_witness :
    Cmd.cargoBuild ["build", "--release"] ("/c" ++ "/llvm-install")
        ("/c" ++ "/sbpf-linker") ∈ (setupLinker (fun _ => true) "/c" wLinkerBuilt).2.1 ∧
    (setupLinker (fun _ => true) "/c" { wLinkerBuilt with linkerBinExists := true }).2.1 =
      (setupLinker (fun _ => true) "/c" wLinkerBuilt).2.1 :=
  c6_linker_always_rebuilt (fun _ => true) "/c" wLinkerBuilt (Or.inl rfl)

set_option maxRecDepth 4000 in
/-- Claim C7: for every linker binary path, the config-write step fully
overwrites the configuration contents with exactly the literal template
instantiated at that path — shown here decomposed in order: the
build-std opt-in for `core` and `alloc`, the `bpfel-unknown-none` target
block selecting the linker, `panic=abort`, the `--dump-module` link argument,
the `-bpf-stack-size` link argument, the static relocation model, and the
build alias. -/
theorem c7_config_byte_exact (w : World) (p : String) :
    (writeConfig w p).cargoConfig =
      some ("[unstable]\nbuild-std = [\"core\", \"alloc\"]\n\n" ++
        ("[target.bpfel-unknown-none]\nrustflags = [\n    \"-C\", \"linker=" ++
          (p ++
            ("\",\n    \"-C\", \"panic=abort\"," ++
              ("\n    \"-C\", \"link-arg=--dump-module=llvm_dump\"," ++
                ("\n    \"-C\", \"link-arg=--llvm-args=-bpf-stack-size=4096\"," ++
                  ("\n    \"-C\", \"relocation-model=static\",\n]\n\n" ++
                    ("[alias]\nbuild-bpf = \"build --release --target bpfel-unknown-none\"\n" ++
                      "xtask = \"run --package xtask --\"\n")))))))) := by
  show some (configContent p) = _
  unfold configContent
  rw [String.append_assoc cfgPre p cfgPost]
  rw [show cfgPre =
    "[unstable]\nbuild-std = [\"core\", \"alloc\"]\n\n" ++
      "[target.bpfel-unknown-none]\nrustflags = [\n    \"-C\", \"linker=" by decide]
  rw [String.append_assoc]
  rw [show cfgPost =
    "\",\n    \"-C\", \"panic=abort\"," ++
      ("\n    \"-C\", \"link-arg=--dump-module=llvm_dump\"," ++
        ("\n    \"-C\", \"link-arg=--llvm-args=-bpf-stack-size=4096\"," ++
          ("\n    \"-C\", \"relocation-model=static\",\n]\n\n" ++
            ("[alias]\nbuild-bpf = \"build --release --target bpfel-unknown-none\"\n" ++
              "xtask = \"run --package xtask --\"\n")))) by decide]

/-- Claim C10: `setup_linker` writes the configuration file only after a
successful linker build: on any failure (clone or build) the previous
configuration contents are left unchanged, and on success the contents are
the generated template at the derived linker binary path. -/
theorem c10_no_config_write_on_failure (ok : Cmd → Bool) (cache : String)
    (w : World) :
    ((setupLinker ok cache w).2.2 ≠ none →
      (setupLinker ok cache w).1.cargoConfig = w.cargoConfig) ∧
    ((setupLinker ok cache w).2.2 = none →
      (setupLinker ok cache w).1.cargoConfig =
        some (configContent
          (cache ++ "/sbpf-linker" ++ "/target/release/sbpf-linker"))) := by
  cases hdir : w.linkerDirExists with
  | true =>
      cases hb : ok (Cmd.cargoBuild ["build", "--release"] (cache ++ "/llvm-install")
          (cache ++ "/sbpf-linker")) with
      | true => simp [setupLinker, ensureCheckout, writeConfig, hdir, hb]
      | false => simp [setupLinker, ensureCheckout, writeConfig, hdir, hb]
  | false =>
      cases hokc : ok (Cmd.gitClone LINKER_BRANCH LINKER_REPO (cache ++ "/sbpf-linker")) with
      | true =>
          cases hb : ok (Cmd.cargoBuild ["build", "--release"] (cache ++ "/llvm-install")
              (cache ++ "/sbpf-linker")) with
          | true => simp [setupLinker, ensureCheckout, writeConfig, hdir, hokc, hb]
          | false => simp [setupLinker, ensureCheckout, writeConfig, hdir, hokc, hb]
      | false => simp [setupLinker, ensureCheckout, writeConfig, hdir, hokc]

/-- Witness for C10: with a pre-existing config file and every subprocess
failing, `setup_linker` leaves the config contents unchanged. -/
theorem c10_witness :
    (setupLinker (fun _ => false) "/c" wFresh).1.cargoConfig = wFresh.cargoConfig :=
  (c10_no_config_write_on_failure (fun _ => false) "/c" wFresh).1 (by decide)
